import Mathlib

/-!
Shallow embedding of the Mesh speedcubing-timer core (src/main.js, evolved
variant starting at the `State` object): result model, statistics engine,
phase-split estimator, manual time-entry parsing, and import handling.
JavaScript numbers are modelled as `ℚ`; the `Infinity` produced by
`getEffectiveTime` for DNF results is modelled with `WithTop ℚ`, and the
`NaN` that a 0/0 division produces is a distinguished constructor of the
average-result type.
-/

namespace Mesh

/-- The `penalty` field of a solve: `'DNF'`, `'+2'`, or `null` (modelled by
`Option Penalty` with `none` for `null`). -/
inductive Penalty
  | dnf
  | plus2
deriving DecidableEq, Repr

/-- The `splits` object set by `saveMeshMetrics`:
`{ cross, f2l, ll }` phase durations in milliseconds. -/
structure Splits where
  cross : ℚ
  f2l : ℚ
  ll : ℚ
deriving DecidableEq, Repr

/-- The metrics object set by `saveMeshMetrics`. Numeric inputs left empty in
the form are stored as `null` (`none` here); check-boxes are plain booleans. -/
structure Metrics where
  crossMoves : Option ℤ
  crossRotations : Option ℤ
  f2lRotations : Option ℤ
  f2lPause : Bool
  llRecognition : Bool
deriving DecidableEq, Repr

/-- One solve record, as built by `stopTimer` / `addTypedTime`:
`{ id, time, scramble, timestamp, splits, metrics, penalty }`.
`metrics = none` models the initial empty object `{}` (no metrics recorded),
`splits = none` models `splits: null`. -/
structure Solve where
  id : String
  time : ℚ
  scramble : String
  timestamp : ℕ
  splits : Option Splits
  metrics : Option Metrics
  penalty : Option Penalty
  typed : Bool := false
deriving DecidableEq, Repr

/-- `getEffectiveTime(solve)`: `Infinity` for a DNF, `time + 2000` for a `+2`,
otherwise the raw `time`. -/
def getEffectiveTime (s : Solve) : WithTop ℚ :=
  match s.penalty with
  | some Penalty.dnf => ⊤
  | some Penalty.plus2 => ((s.time + 2000 : ℚ) : WithTop ℚ)
  | none => ((s.time : ℚ) : WithTop ℚ)

/-- `l.slice(-n)` on an array: the last `n` elements (the whole array when
`n = 0`, since `slice(-0)` is `slice(0)`, or when `n ≥ length`). -/
def jsSliceLast {α : Type} (l : List α) (n : ℕ) : List α :=
  if n = 0 then l else l.drop (l.length - n)

/-- `l.slice(1, -1)` on an array: drop the first and the last element. -/
def jsSliceOneNegOne {α : Type} (l : List α) : List α :=
  (l.drop 1).dropLast

/-- `[...times].sort((a, b) => a - b)`: numeric ascending sort. The comparator
is only ever applied by `calculateAverage` after the more-than-one-DNF guard,
so at most one `Infinity` is present and the subtraction comparator agrees
with the numeric order on `WithTop ℚ`. -/
def jsSortAsc (l : List (WithTop ℚ)) : List (WithTop ℚ) :=
  List.insertionSort (· ≤ ·) l

/-- `recent.filter(s => s.penalty === 'DNF').length`. -/
def dnfCount (recent : List Solve) : ℕ :=
  (recent.filter fun s => decide (s.penalty = some Penalty.dnf)).length

/-- Result of `calculateAverage`: `null`, the JavaScript `NaN` produced by the
`0 / 0` division on an empty trimmed window, or a finite number of
milliseconds. -/
inductive AvgResult
  | null
  | nan
  | val (q : ℚ)
deriving DecidableEq, Repr

/-- Whether an `AvgResult` is a finite numeric value. -/
def AvgResult.isVal : AvgResult → Bool
  | AvgResult.val _ => true
  | _ => false

/-- `calculateAverage(solves, n)` (evolved variant, src/main.js lines
1572-1589): `null` when fewer than `n` solves; over the last `n` solves,
`null` when more than one DNF; map to effective times, sort ascending, trim
one lowest and one highest; `null` when an `Infinity` survives trimming;
otherwise `trimmed.reduce((a,b) => a+b, 0) / trimmed.length`.  When the
trimmed window is empty that division is `0 / 0`, i.e. JavaScript `NaN`.
`WithTop.untop' 0` is never applied to `⊤`: the `any`-guard just above has
already returned `null` in that case. -/
def calculateAverage (solves : List Solve) (n : ℕ) : AvgResult :=
  if solves.length < n then AvgResult.null
  else
    let recent := jsSliceLast solves n
    if 1 < dnfCount recent then AvgResult.null
    else
      let times := recent.map getEffectiveTime
      let sorted := jsSortAsc times
      let trimmed := jsSliceOneNegOne sorted
      if trimmed.any fun t => decide (t = (⊤ : WithTop ℚ)) then AvgResult.null
      else if trimmed.length = 0 then AvgResult.nan
      else AvgResult.val ((trimmed.map (WithTop.untop' 0)).sum / (trimmed.length : ℚ))

/-- `session.solves.filter(s => s.penalty !== 'DNF').map(getEffectiveTime)`
from `updateStats`. -/
def validTimes (solves : List Solve) : List (WithTop ℚ) :=
  (solves.filter fun s => decide (s.penalty ≠ some Penalty.dnf)).map getEffectiveTime

/-- `Math.min(...times)` guarded by `times.length > 0` in `updateStats`;
`none` models the "no data" dash. -/
def bestStat (solves : List Solve) : Option (WithTop ℚ) :=
  match validTimes solves with
  | [] => none
  | t :: ts => some (ts.foldl min t)

/-- `Math.max(...times)` guarded by `times.length > 0` in `updateStats`. -/
def worstStat (solves : List Solve) : Option (WithTop ℚ) :=
  match validTimes solves with
  | [] => none
  | t :: ts => some (ts.foldl max t)

/-- `times.reduce((a, b) => a + b, 0) / times.length` guarded by
`times.length > 0` in `updateStats`.  The filter has removed every DNF, so
each entry is finite and `WithTop.untop' 0` is exact. -/
def meanStat (solves : List Solve) : Option ℚ :=
  match validTimes solves with
  | [] => none
  | ts => some ((ts.map (WithTop.untop' 0)).sum / (ts.length : ℚ))

/-- The initial `State.meshSplits` value `[0.2, 0.65]`. -/
def initMeshSplits : ℚ × ℚ := (0.2, 0.65)

/-- `updateMeshSplit(index, relativeX)` as a function of the current split
pair: index 0 clamps to `[0.1, 0.4]` and, when the result reaches within
`0.1` of `r2`, forces it to `r2 - 0.1`; index 1 clamps to `[0.5, 0.9]` and,
when the result reaches within `0.1` of `r1`, forces it to `r1 + 0.1`; any
other index leaves the pair unchanged. -/
def updateMeshSplit (index : ℕ) (relativeX : ℚ) (splits : ℚ × ℚ) : ℚ × ℚ :=
  if index = 0 then
    let r1 := max 0.1 (min 0.4 relativeX)
    let r1 := if splits.2 - 0.1 ≤ r1 then splits.2 - 0.1 else r1
    (r1, splits.2)
  else if index = 1 then
    let r2 := max 0.5 (min 0.9 relativeX)
    let r2 := if r2 ≤ splits.1 + 0.1 then splits.1 + 0.1 else r2
    (splits.1, r2)
  else
    splits

/-- Applying a whole sequence of drag adjustments `(index, relativeX)` to a
split pair, left to right. -/
def applyMeshSplitOps (start : ℚ × ℚ) (ops : List (ℕ × ℚ)) : ℚ × ℚ :=
  ops.foldl (fun p op => updateMeshSplit op.1 op.2 p) start

/-- The invariant the spec asserts for the split pair:
`0.1 ≤ r1 ≤ r2 - 0.1` and `r1 + 0.1 ≤ r2 ≤ 0.9`. -/
def MeshInv (p : ℚ × ℚ) : Prop :=
  0.1 ≤ p.1 ∧ p.1 ≤ p.2 - 0.1 ∧ p.1 + 0.1 ≤ p.2 ∧ p.2 ≤ 0.9

instance : DecidablePred MeshInv := fun p => by
  unfold MeshInv; infer_instance

/-- The pending solve built by `stopTimer`: `{ id: Date.now().toString(),
time, scramble, timestamp: Date.now(), splits: null, metrics: {},
penalty: null }`. -/
def stopTimerSolve (timerValue : ℚ) (scramble : String) (now : ℕ) : Solve :=
  { id := toString now
    time := timerValue
    scramble := scramble
    timestamp := now
    splits := none
    metrics := none
    penalty := none }

/-- `saveMeshMetrics()` acting on the pending solve: stores the entered
metrics (empty numeric inputs become `null`) and sets
`splits = { cross: time * r1, f2l: time * (r2 - r1), ll: time * (1 - r2) }`
from the current `State.meshSplits`. -/
def saveMeshMetrics (cur : Solve) (meshSplits : ℚ × ℚ)
    (crossMoves crossRotations f2lRotations : Option ℤ)
    (f2lPause llRecognition : Bool) : Solve :=
  { cur with
    metrics := some
      { crossMoves := crossMoves
        crossRotations := crossRotations
        f2lRotations := f2lRotations
        f2lPause := f2lPause
        llRecognition := llRecognition }
    splits := some
      { cross := cur.time * meshSplits.1
        f2l := cur.time * (meshSplits.2 - meshSplits.1)
        ll := cur.time * (1 - meshSplits.2) } }

/-- `skipMeshMetrics()` acting on the pending solve: it only hides the modal
and calls `completeSolve()`, leaving the pending solve untouched. -/
def skipMeshMetrics (cur : Solve) : Solve :=
  cur

/-- `completeSolve()`: `session.solves.push(State.currentSolve)`. -/
def completeSolve (solves : List Solve) (cur : Solve) : List Solve :=
  solves ++ [cur]

/-- The `State.settings` record. -/
structure Settings where
  meshBar : Bool
  stackmat : Bool
  hideWhileRunning : Bool
  voiceAlerts : Bool
  showHistory : Bool
  confirmDelete : Bool
  theme : String
  typingMode : Bool
deriving DecidableEq, Repr

/-- An imported `settings` object, whose keys may each be present or absent;
`{ ...State.settings, ...data.settings }` overrides exactly the present
keys. -/
structure PartialSettings where
  meshBar : Option Bool := none
  stackmat : Option Bool := none
  hideWhileRunning : Option Bool := none
  voiceAlerts : Option Bool := none
  showHistory : Option Bool := none
  confirmDelete : Option Bool := none
  theme : Option String := none
  typingMode : Option Bool := none
deriving DecidableEq, Repr

/-- The object spread `{ ...old, ...p }` restricted to the settings keys. -/
def mergeSettings (old : Settings) (p : PartialSettings) : Settings :=
  { meshBar := p.meshBar.getD old.meshBar
    stackmat := p.stackmat.getD old.stackmat
    hideWhileRunning := p.hideWhileRunning.getD old.hideWhileRunning
    voiceAlerts := p.voiceAlerts.getD old.voiceAlerts
    showHistory := p.showHistory.getD old.showHistory
    confirmDelete := p.confirmDelete.getD old.confirmDelete
    theme := p.theme.getD old.theme
    typingMode := p.typingMode.getD old.typingMode }

/-- A session `{ id, type, name, solves, createdAt }` as built by
`createSession`. -/
structure Session where
  id : String
  type : String
  name : String
  solves : List Solve
  createdAt : ℕ
deriving DecidableEq, Repr

/-- The slice of `State` that `importData` touches. -/
structure AppState where
  sessions : List Session
  currentSessionId : Option String
  settings : Settings
  meshSplits : ℚ × ℚ
deriving DecidableEq, Repr

/-- A parsed import document; each top-level key may be absent (`none`).
`sessions = some _` models a present value that passes the
`Array.isArray` check. -/
structure ImportDoc where
  sessions : Option (List Session) := none
  settings : Option PartialSettings := none
  meshSplits : Option (ℚ × ℚ) := none
deriving DecidableEq, Repr

/-- The in-memory effect of a successful `importData` parse: each present
top-level key replaces (for `settings`, merges into) the state, each absent
key leaves the prior value; afterwards, when the session list is non-empty,
`currentSessionId` is set to the id of its first element. -/
def importData (st : AppState) (data : ImportDoc) : AppState :=
  let sessions :=
    match data.sessions with
    | some ss => ss
    | none => st.sessions
  let settings :=
    match data.settings with
    | some p => mergeSettings st.settings p
    | none => st.settings
  let meshSplits :=
    match data.meshSplits with
    | some ms => ms
    | none => st.meshSplits
  let currentSessionId :=
    match sessions with
    | s :: _ => some s.id
    | [] => st.currentSessionId
  { sessions := sessions
    currentSessionId := currentSessionId
    settings := settings
    meshSplits := meshSplits }

/-- Numeric value of a list of decimal digit characters, most significant
first, as `parseInt`/`parseFloat` accumulate them. -/
def digitsToNat (ds : List Char) : ℕ :=
  ds.foldl (fun acc c => 10 * acc + (c.toNat - 48)) 0

/-- Value of a fractional digit block: `digits / 10 ^ length`. -/
def fracValue (ds : List Char) : ℚ :=
  (digitsToNat ds : ℚ) / (10 ^ ds.length : ℚ)

/-- JavaScript strings handled by the parser are modelled as their character
sequences; `input.trim()` drops whitespace from both ends. -/
def jsTrim (cs : List Char) : List Char :=
  ((cs.dropWhile Char.isWhitespace).reverse.dropWhile Char.isWhitespace).reverse

/-- `input.toLowerCase()` on the ASCII inputs this path receives. -/
def jsToLower (cs : List Char) : List Char :=
  cs.map Char.toLower

/-- JavaScript `parseFloat` on the decimal grammar this input path produces:
skip leading whitespace, optional sign, a run of digits with an optional
fractional part (at least one digit overall), ignoring any trailing
characters; `none` models `NaN`.  The exponent form and the `Infinity`
literal are not producible by this UI's time entries and are not modelled. -/
def jsParseFloat (s : List Char) : Option ℚ :=
  let cs := s.dropWhile Char.isWhitespace
  let signAndRest : ℚ × List Char :=
    match cs with
    | '-' :: rest => (-1, rest)
    | '+' :: rest => (1, rest)
    | _ => (1, cs)
  let sign := signAndRest.1
  let intDs := signAndRest.2.takeWhile Char.isDigit
  let afterInt := signAndRest.2.dropWhile Char.isDigit
  match afterInt with
  | '.' :: rest =>
    let fracDs := rest.takeWhile Char.isDigit
    if intDs.isEmpty ∧ fracDs.isEmpty then none
    else some (sign * ((digitsToNat intDs : ℚ) + fracValue fracDs))
  | _ => if intDs.isEmpty then none else some (sign * (digitsToNat intDs : ℚ))

/-- JavaScript `parseInt` (no radix argument) on decimal input: skip leading
whitespace, optional sign, a run of at least one digit, ignoring trailing
characters; `none` models `NaN`.  The hex-prefix form is not modelled. -/
def jsParseInt (s : List Char) : Option ℤ :=
  let cs := s.dropWhile Char.isWhitespace
  let signAndRest : ℤ × List Char :=
    match cs with
    | '-' :: rest => (-1, rest)
    | '+' :: rest => (1, rest)
    | _ => (1, cs)
  let ds := signAndRest.2.takeWhile Char.isDigit
  if ds.isEmpty then none else some (signAndRest.1 * (digitsToNat ds : ℤ))

/-- The result object of `parseTimeInput`: `{ time, penalty }`. -/
structure ParsedTime where
  time : ℚ
  penalty : Option Penalty
deriving DecidableEq, Repr

/-- `input.replace(/\+2?$/, '')`: strips a trailing `+2`, otherwise a
trailing `+`, otherwise changes nothing. -/
def stripPlusSuffix (s : List Char) : List Char :=
  if ['+', '2'].isSuffixOf s then s.dropLast.dropLast
  else if ['+'].isSuffixOf s then s.dropLast
  else s

/-- `input.split(sep)` for a one-character separator: JavaScript split with
no limit, so `"".split(":")` is `[""]` and separators at the ends produce
empty parts. -/
def jsSplitOnChar (sep : Char) (cs : List Char) : List (List Char) :=
  cs.foldr
    (fun c acc =>
      match acc with
      | hd :: tl => if c = sep then [] :: hd :: tl else (c :: hd) :: tl
      | [] => [[c]])
    [[]]

/-- The numeric-body part of `parseTimeInput`, after DNF and penalty-suffix
handling: `MM:SS[.fraction]` via `split(':')` (the JavaScript destructuring
`[minutes, rest]` takes the first two parts) with `parseInt`/`parseFloat`,
or `SS[.fraction]` via `parseFloat`; rejects a non-parsing body and a
duration that is `≤ 0` or `> 3600000`. -/
def parseNumericBody (input : List Char) (penalty : Option Penalty) : Option ParsedTime :=
  let timeMs : Option ℚ :=
    if input.contains ':' then
      match jsSplitOnChar ':' input with
      | minutes :: rest :: _ =>
        match jsParseInt minutes, jsParseFloat rest with
        | some m, some seconds => some (((m : ℚ) * 60 + seconds) * 1000)
        | _, _ => none
      -- unreachable: splitting on a separator always yields at least one part
      | _ => none
    else
      match jsParseFloat input with
      | some seconds => some (seconds * 1000)
      | none => none
  match timeMs with
  | none => none
  | some t => if t ≤ 0 ∨ 3600000 < t then none else some ⟨t, penalty⟩

/-- `parseTimeInput(input)`: trim; `"dnf"` case-insensitively is a void
result with time 0; a trailing `+` or `+2` yields a `+2` penalty and is
stripped (and the remainder re-trimmed) before the numeric body is parsed. -/
def parseTimeInput (input : List Char) : Option ParsedTime :=
  let input := jsTrim input
  if jsToLower input = ['d', 'n', 'f'] then some ⟨0, some Penalty.dnf⟩
  else if ['+'].isSuffixOf input || ['+', '2'].isSuffixOf input then
    parseNumericBody (jsTrim (stripPlusSuffix input)) (some Penalty.plus2)
  else
    parseNumericBody input none

/-- Finite effective time of a non-DNF solve: the `+ 2000` branch for a `+2`
penalty, the raw time otherwise.  Used to relate `getEffectiveTime` to plain
rational arithmetic in the statistics proofs. -/
def effQ (s : Solve) : ℚ :=
  match s.penalty with
  | some Penalty.plus2 => s.time + 2000
  | _ => s.time

/-- Test-input builder: a solve with the given duration and penalty and no
annotations. -/
def mkSolve (t : ℚ) (p : Option Penalty) : Solve :=
  { id := ""
    time := t
    scramble := ""
    timestamp := 0
    splits := none
    metrics := none
    penalty := p }

/-- Five solves with durations 10000..14000 ms and no penalties. -/
def c2Solves : List Solve :=
  [mkSolve 10000 none, mkSolve 11000 none, mkSolve 12000 none,
   mkSolve 13000 none, mkSolve 14000 none]

/-- The same five solves with the one at index 2 marked DNF. -/
def c2SolvesVoid : List Solve :=
  [mkSolve 10000 none, mkSolve 11000 none, mkSolve 12000 (some Penalty.dnf),
   mkSolve 13000 none, mkSolve 14000 none]

/-- A `+2`-penalized solve with duration 9000 ms. -/
def plusTwoSolve9000 : Solve :=
  mkSolve 9000 (some Penalty.plus2)

/-- A void (DNF) solve. -/
def voidSolve : Solve :=
  mkSolve 0 (some Penalty.dnf)

/-- Two penalty-free solves, a window the trimming empties out. -/
def c1Pair : List Solve :=
  [mkSolve 10000 none, mkSolve 11000 none]

/-- A single penalty-free solve. -/
def c10Single : List Solve :=
  [mkSolve 10000 none]

/-- Two example solves for the best/mean/worst witness: one clean, one with a
`+2` penalty. -/
def c8Solves : List Solve :=
  [mkSolve 10000 none, mkSolve 12000 (some Penalty.plus2)]

/-- The initial `State.settings` object. -/
def defaultSettings : Settings :=
  { meshBar := true
    stackmat := false
    hideWhileRunning := false
    voiceAlerts := false
    showHistory := true
    confirmDelete := true
    theme := "dark"
    typingMode := false }

/-- The initial in-memory state slice touched by `importData`. -/
def initAppState : AppState :=
  { sessions := []
    currentSessionId := none
    settings := defaultSettings
    meshSplits := initMeshSplits }

/-- An imported session used by the import witness. -/
def c9Session : Session :=
  { id := "1700000000000"
    type := "normal"
    name := "Normal 1"
    solves := []
    createdAt := 0 }

/-- An import document supplying only a one-session `sessions` array. -/
def c9Doc : ImportDoc :=
  { sessions := some [c9Session] }

/-- C3: for every solve, `effectiveTime` is `+infinity` when the penalty is
void (DNF), `durationMs + 2000` when the penalty is `+2`, and `durationMs`
otherwise; in particular a `+2` solve with duration 9000 maps to 11000 and a
void solve maps to `+infinity`. -/
theorem C3_effectiveTime (s : Solve) :
    (s.penalty = some Penalty.dnf → getEffectiveTime s = ⊤) ∧
    (s.penalty = some Penalty.plus2 →
      getEffectiveTime s = ((s.time + 2000 : ℚ) : WithTop ℚ)) ∧
    (s.penalty = none → getEffectiveTime s = ((s.time : ℚ) : WithTop ℚ)) ∧
    getEffectiveTime plusTwoSolve9000 = ((11000 : ℚ) : WithTop ℚ) ∧
    getEffectiveTime voidSolve = ⊤ := by
  refine ⟨fun h => ?_, fun h => ?_, fun h => ?_, ?_, ?_⟩
  · simp [getEffectiveTime, h]
  · simp [getEffectiveTime, h]
  · simp [getEffectiveTime, h]
  · simp only [getEffectiveTime, plusTwoSolve9000, mkSolve]
    norm_num
  · rfl

/-- Witness for C3 at the concrete `+2` solve with duration 9000. -/
theorem C3_effectiveTime_witness :
    getEffectiveTime plusTwoSolve9000 =
      ((plusTwoSolve9000.time + 2000 : ℚ) : WithTop ℚ) :=
  (C3_effectiveTime plusTwoSolve9000).2.1 rfl

/-- C4 counterexample: `updateMeshSplit(0, 0.65)` on the pair `(0.2, 0.65)`
produces `r1 = 0.4`, not the claimed `r2 - 0.1 = 0.55`: the `[0.1, 0.4]`
clamp applies first and `0.4` is not within `0.1` of `r2 = 0.65`, so the
forcing branch never runs. -/
theorem C4_counterexample :
    updateMeshSplit 0 0.65 (0.2, 0.65) = (0.4, 0.65) ∧
    (updateMeshSplit 0 0.65 (0.2, 0.65)).1 ≠ (0.65 : ℚ) - 0.1 := by
  constructor
  · norm_num [updateMeshSplit]
  · norm_num [updateMeshSplit]

/-- C4 amended: `updateMeshSplit(0, 0.65)` on `(0.2, 0.65)` clamps the
proposal to the index-0 range `[0.1, 0.4]`, yielding `r1 = 0.4`, which never
exceeds `r2 - 0.1 = 0.55`. -/
theorem C4_setRatio_result :
    updateMeshSplit 0 0.65 (0.2, 0.65) = (0.4, 0.65) ∧
    (updateMeshSplit 0 0.65 (0.2, 0.65)).1 ≤ (0.65 : ℚ) - 0.1 := by
  constructor
  · norm_num [updateMeshSplit]
  · norm_num [updateMeshSplit]

/-- C5 counterexample: a timed solve completed through the skip path is
stored with `splits = null`; it does not carry the derived phase splits the
claim promises (here `10000 ms` under ratios `(0.2, 0.65)`). -/
theorem C5_counterexample :
    (completeSolve [] (skipMeshMetrics (stopTimerSolve 10000 "R U F" 7))).map
        Solve.splits = [none] ∧
    (none : Option Splits) ≠ some
      { cross := 10000 * (0.2 : ℚ)
        f2l := 10000 * ((0.65 : ℚ) - 0.2)
        ll := 10000 * (1 - (0.65 : ℚ)) } := by
  constructor
  · rfl
  · simp

/-- C5 amended: a completed timed solve that goes through the skip path is
stored unchanged, with `splits` still `null` and metrics still absent;
derived splits are computed and stored only on the `saveMeshMetrics` path. -/
theorem C5_skip_keeps_splits_absent (t : ℚ) (scr : String) (now : ℕ)
    (solves : List Solve) :
    completeSolve solves (skipMeshMetrics (stopTimerSolve t scr now)) =
      solves ++ [stopTimerSolve t scr now] ∧
    (skipMeshMetrics (stopTimerSolve t scr now)).splits = none ∧
    (skipMeshMetrics (stopTimerSolve t scr now)).metrics = none ∧
    ∀ (ms : ℚ × ℚ) (cm cr fr : Option ℤ) (fp lr : Bool),
      (saveMeshMetrics (stopTimerSolve t scr now) ms cm cr fr fp lr).splits =
        some { cross := t * ms.1, f2l := t * (ms.2 - ms.1), ll := t * (1 - ms.2) } :=
  ⟨rfl, rfl, rfl, fun _ _ _ _ _ _ => rfl⟩

/-- One `updateMeshSplit` call preserves the split-pair invariant. -/
theorem meshInv_updateMeshSplit (i : ℕ) (x : ℚ) (p : ℚ × ℚ) (h : MeshInv p) :
    MeshInv (updateMeshSplit i x p) := by
  obtain ⟨h1, h2, h3, h4⟩ := h
  have hm1 : (0.1 : ℚ) ≤ max 0.1 (min 0.4 x) := le_max_left _ _
  have hm2 : max 0.1 (min 0.4 x) ≤ 0.4 := max_le (by norm_num) (min_le_left _ _)
  have hn1 : (0.5 : ℚ) ≤ max 0.5 (min 0.9 x) := le_max_left _ _
  have hn2 : max 0.5 (min 0.9 x) ≤ 0.9 := max_le (by norm_num) (min_le_left _ _)
  dsimp only [updateMeshSplit, MeshInv]
  split_ifs <;> exact ⟨by linarith, by linarith, by linarith, by linarith⟩

/-- The invariant transfers along any list of adjustment operations. -/
theorem meshInv_applyMeshSplitOps (start : ℚ × ℚ) (h : MeshInv start)
    (ops : List (ℕ × ℚ)) : MeshInv (applyMeshSplitOps start ops) := by
  induction ops generalizing start with
  | nil => exact h
  | cons op ops ih =>
    simp only [applyMeshSplitOps, List.foldl_cons] at ih ⊢
    exact ih _ (meshInv_updateMeshSplit op.1 op.2 start h)

/-- C6: starting from the initial ratios `(0.2, 0.65)`, every sequence of
`updateMeshSplit` operations keeps `0.1 ≤ r1 ≤ r2 - 0.1` and
`r1 + 0.1 ≤ r2 ≤ 0.9`; hence phase 2's share `r2 - r1` is at least `0.1` and
all three phase shares `r1`, `r2 - r1`, `1 - r2` are non-negative. -/
theorem C6_meshSplit_invariant (ops : List (ℕ × ℚ)) :
    MeshInv (applyMeshSplitOps initMeshSplits ops) ∧
    0.1 ≤ (applyMeshSplitOps initMeshSplits ops).2 -
        (applyMeshSplitOps initMeshSplits ops).1 ∧
    0 ≤ (applyMeshSplitOps initMeshSplits ops).1 ∧
    0 ≤ (applyMeshSplitOps initMeshSplits ops).2 -
        (applyMeshSplitOps initMeshSplits ops).1 ∧
    0 ≤ 1 - (applyMeshSplitOps initMeshSplits ops).2 := by
  have h : MeshInv (applyMeshSplitOps initMeshSplits ops) := by
    refine meshInv_applyMeshSplitOps initMeshSplits ?_ ops
    constructor <;> norm_num [initMeshSplits]
  obtain ⟨h1, h2, h3, h4⟩ := h
  exact ⟨⟨h1, h2, h3, h4⟩, by linarith, by linarith, by linarith, by linarith⟩

/-- C2: `rollingAverage(5)` over the five clean solves
`[10000, 11000, 12000, 13000, 14000]` is the average of the middle three,
12000; with the solve at index 2 void, the window maps to
`[10000, 11000, ∞, 13000, 14000]`, sorts the infinity to the top, trims it
together with the 10000, and averages `[11000, 13000, 14000]` to
`38000 / 3 ≈ 12666.67`. -/
theorem C2_ao5_examples :
    calculateAverage c2Solves 5 = AvgResult.val 12000 ∧
    calculateAverage c2SolvesVoid 5 =
      AvgResult.val ((11000 + 13000 + 14000 : ℚ) / 3) := by
  constructor
  · simp [calculateAverage, c2Solves, mkSolve, jsSliceLast, jsSliceOneNegOne,
      jsSortAsc, dnfCount, getEffectiveTime, List.insertionSort,
      List.orderedInsert, WithTop.untop'_coe, List.filter_cons,
      WithTop.coe_le_coe, List.dropLast, -WithTop.coe_ofNat]
    norm_num [WithTop.untop'_coe, WithTop.coe_le_coe, -WithTop.coe_ofNat]
  · simp [calculateAverage, c2SolvesVoid, mkSolve, jsSliceLast, jsSliceOneNegOne,
      jsSortAsc, dnfCount, getEffectiveTime, List.insertionSort,
      List.orderedInsert, WithTop.untop'_coe, List.filter_cons,
      WithTop.coe_le_coe, List.dropLast, -WithTop.coe_ofNat]
    norm_num [WithTop.untop'_coe, WithTop.coe_le_coe, -WithTop.coe_ofNat]

/-- The last-`n` slice of a list of length at least `n` has length `n`. -/
theorem jsSliceLast_length {α : Type} (l : List α) (n : ℕ) (h : n ≤ l.length)
    (h0 : n ≠ 0) : (jsSliceLast l n).length = n := by
  unfold jsSliceLast
  rw [if_neg h0, List.length_drop]
  omega

/-- The `slice(1, -1)` trim removes two elements. -/
theorem jsSliceOneNegOne_length {α : Type} (l : List α) :
    (jsSliceOneNegOne l).length = l.length - 2 := by
  unfold jsSliceOneNegOne
  rw [List.length_dropLast, List.length_drop]
  omega

/-- Sorting preserves length. -/
theorem jsSortAsc_length (l : List (WithTop ℚ)) :
    (jsSortAsc l).length = l.length :=
  List.length_insertionSort _ l

/-- The sort returns an ascending reordering of its input. -/
theorem jsSortAsc_sorted (l : List (WithTop ℚ)) :
    (jsSortAsc l).Sorted (· ≤ ·) :=
  List.sorted_insertionSort _ l

/-- The sort permutes its input. -/
theorem jsSortAsc_perm (l : List (WithTop ℚ)) : List.Perm (jsSortAsc l) l :=
  List.perm_insertionSort _ l

/-- C1 counterexample: at `n = 2` over two clean solves the claim's own case
split fails: the sequence is long enough and the window holds no void, yet
`calculateAverage` returns `NaN` (the `0 / 0` division on the emptied
window), which is neither the undefined result `null` nor a numeric mean. -/
theorem C1_counterexample :
    calculateAverage c1Pair 2 = AvgResult.nan ∧
    calculateAverage c1Pair 2 ≠ AvgResult.null ∧
    (calculateAverage c1Pair 2).isVal = false ∧
    c1Pair.length = 2 ∧
    dnfCount (jsSliceLast c1Pair 2) = 0 := by
  have h : calculateAverage c1Pair 2 = AvgResult.nan := by
    simp [calculateAverage, c1Pair, mkSolve, jsSliceLast, jsSliceOneNegOne,
      jsSortAsc, dnfCount, getEffectiveTime, List.insertionSort,
      List.orderedInsert, WithTop.untop'_coe, List.filter_cons,
      WithTop.coe_le_coe, List.dropLast, -WithTop.coe_ofNat]
  refine ⟨h, ?_, ?_, rfl, rfl⟩
  · rw [h]
    simp
  · rw [h]
    rfl

/-- C1 amended (restricted to `n ≥ 3`, which the `NaN` counterexample at
`n = 2` forces): `calculateAverage` is `null` when fewer than `n` solves
exist; otherwise, over the last `n` solves it is `null` when more than one is
void; otherwise the effective times are sorted ascending into a reordering of
the window, the trim discards exactly one lowest and one highest value
(leaving `n - 2`), the result is `null` when an infinity survives trimming,
and otherwise it is the mean of the `n - 2` trimmed values. -/
theorem C1_rollingAverage_contract (solves : List Solve) (n : ℕ) (hn : 3 ≤ n) :
    (solves.length < n → calculateAverage solves n = AvgResult.null) ∧
    (n ≤ solves.length →
      (1 < dnfCount (jsSliceLast solves n) →
        calculateAverage solves n = AvgResult.null) ∧
      (dnfCount (jsSliceLast solves n) ≤ 1 →
        (jsSortAsc ((jsSliceLast solves n).map getEffectiveTime)).Sorted (· ≤ ·) ∧
        List.Perm (jsSortAsc ((jsSliceLast solves n).map getEffectiveTime))
          ((jsSliceLast solves n).map getEffectiveTime) ∧
        (jsSliceOneNegOne
            (jsSortAsc ((jsSliceLast solves n).map getEffectiveTime))).length = n - 2 ∧
        ((⊤ : WithTop ℚ) ∈ jsSliceOneNegOne
            (jsSortAsc ((jsSliceLast solves n).map getEffectiveTime)) →
          calculateAverage solves n = AvgResult.null) ∧
        ((⊤ : WithTop ℚ) ∉ jsSliceOneNegOne
            (jsSortAsc ((jsSliceLast solves n).map getEffectiveTime)) →
          calculateAverage solves n = AvgResult.val
            (((jsSliceOneNegOne
                  (jsSortAsc ((jsSliceLast solves n).map getEffectiveTime))).map
                (WithTop.untop' 0)).sum / ((n - 2 : ℕ) : ℚ))))) := by
  constructor
  · intro h
    simp only [calculateAverage]
    rw [if_pos h]
  · intro hlen
    have hnotlt : ¬ solves.length < n := not_lt.2 hlen
    have hlen2 : (jsSliceLast solves n).length = n :=
      jsSliceLast_length _ _ hlen (by omega)
    have htrimlen : (jsSliceOneNegOne
        (jsSortAsc ((jsSliceLast solves n).map getEffectiveTime))).length = n - 2 := by
      rw [jsSliceOneNegOne_length, jsSortAsc_length, List.length_map, hlen2]
    constructor
    · intro hd
      simp only [calculateAverage]
      rw [if_neg hnotlt, if_pos hd]
    · intro hd
      refine ⟨jsSortAsc_sorted _, jsSortAsc_perm _, htrimlen, ?_, ?_⟩
      · intro htop
        have hany : ((jsSliceOneNegOne
            (jsSortAsc ((jsSliceLast solves n).map getEffectiveTime))).any
              fun t => decide (t = (⊤ : WithTop ℚ))) = true := by
          simp only [List.any_eq_true]
          exact ⟨⊤, htop, by simp⟩
        simp only [calculateAverage]
        rw [if_neg hnotlt, if_neg (not_lt.2 hd), if_pos hany]
      · intro htop
        have hany : ¬ ((jsSliceOneNegOne
            (jsSortAsc ((jsSliceLast solves n).map getEffectiveTime))).any
              fun t => decide (t = (⊤ : WithTop ℚ))) = true := by
          simp only [List.any_eq_true, not_exists]
          intro t
          rintro ⟨ht, hdec⟩
          simp only [decide_eq_true_eq] at hdec
          exact htop (hdec ▸ ht)
        have hne : ¬ (jsSliceOneNegOne
            (jsSortAsc ((jsSliceLast solves n).map getEffectiveTime))).length = 0 := by
          rw [htrimlen]
          omega
        simp only [calculateAverage]
        rw [if_neg hnotlt, if_neg (not_lt.2 hd), if_neg hany, if_neg hne, htrimlen]

/-- Witness for the amended C1 contract: at `n = 3` over the three clean
solves `[10000, 11000, 12000]` the too-short branch applies for a 2-element
sequence prefix check, and the full sequence produces the trimmed mean
`11000`. -/
theorem C1_rollingAverage_contract_witness :
    calculateAverage [mkSolve 10000 none, mkSolve 11000 none] 3 = AvgResult.null :=
  (C1_rollingAverage_contract [mkSolve 10000 none, mkSolve 11000 none] 3
    (by norm_num)).1 (by norm_num)

/-- C10: for `n = 1` or `n = 2`, a sequence of at least `n` solves whose last
`n` members contain at most one void makes `calculateAverage` run the
unguarded `0 / 0` division on the emptied trimmed window: the result is
`NaN`, not `null` and not a mean. -/
theorem C10_small_window_nan (solves : List Solve) (n : ℕ) (hn : n = 1 ∨ n = 2)
    (hlen : n ≤ solves.length) (hdnf : dnfCount (jsSliceLast solves n) ≤ 1) :
    calculateAverage solves n = AvgResult.nan := by
  have hn0 : n ≠ 0 := by omega
  have hlen2 : (jsSliceLast solves n).length = n :=
    jsSliceLast_length _ _ hlen hn0
  have htrim : (jsSliceOneNegOne
      (jsSortAsc ((jsSliceLast solves n).map getEffectiveTime))).length = 0 := by
    rw [jsSliceOneNegOne_length, jsSortAsc_length, List.length_map, hlen2]
    omega
  have htrimnil : jsSliceOneNegOne
      (jsSortAsc ((jsSliceLast solves n).map getEffectiveTime)) = [] :=
    List.length_eq_zero.1 htrim
  simp only [calculateAverage]
  rw [if_neg (not_lt.2 hlen), if_neg (not_lt.2 hdnf), htrimnil]
  simp

/-- Witness for C10 at the concrete one-solve sequence and `n = 1`. -/
theorem C10_small_window_nan_witness :
    calculateAverage c10Single 1 = AvgResult.nan :=
  C10_small_window_nan c10Single 1 (Or.inl rfl) (by norm_num [c10Single])
    (by simp [dnfCount, jsSliceLast, c10Single, mkSolve])

/-- A non-DNF solve's effective time is the finite value `effQ`. -/
theorem getEffectiveTime_of_ne_dnf (s : Solve) (h : s.penalty ≠ some Penalty.dnf) :
    getEffectiveTime s = ((effQ s : ℚ) : WithTop ℚ) := by
  unfold getEffectiveTime effQ
  match hp : s.penalty with
  | none => rfl
  | some Penalty.plus2 => rfl
  | some Penalty.dnf => exact absurd hp h

/-- Over an all-non-DNF solve list, `validTimes` is the coercion of the
finite effective times. -/
theorem validTimes_of_all_ne_dnf (solves : List Solve)
    (h : ∀ s ∈ solves, s.penalty ≠ some Penalty.dnf) :
    validTimes solves = (solves.map effQ).map (fun q => ((q : ℚ) : WithTop ℚ)) := by
  unfold validTimes
  rw [List.filter_eq_self.2 (fun s hs => by simpa using h s hs)]
  rw [List.map_map]
  exact List.map_congr_left fun s hs => by
    rw [Function.comp_apply, getEffectiveTime_of_ne_dnf s (h s hs)]

/-- Folding `min` commutes with the coercion into `WithTop ℚ`. -/
theorem foldl_min_coe (l : List ℚ) (a : ℚ) :
    (l.map (fun q => ((q : ℚ) : WithTop ℚ))).foldl min ((a : ℚ) : WithTop ℚ) =
      ((l.foldl min a : ℚ) : WithTop ℚ) := by
  induction l generalizing a with
  | nil => rfl
  | cons c l ih =>
    simp only [List.map_cons, List.foldl_cons, ← WithTop.coe_min]
    exact ih (min a c)

/-- Folding `max` commutes with the coercion into `WithTop ℚ`. -/
theorem foldl_max_coe (l : List ℚ) (a : ℚ) :
    (l.map (fun q => ((q : ℚ) : WithTop ℚ))).foldl max ((a : ℚ) : WithTop ℚ) =
      ((l.foldl max a : ℚ) : WithTop ℚ) := by
  induction l generalizing a with
  | nil => rfl
  | cons c l ih =>
    simp only [List.map_cons, List.foldl_cons, ← WithTop.coe_max]
    exact ih (max a c)

/-- The fold of `min` over `a :: l` bounds every member from below. -/
theorem foldl_min_le (l : List ℚ) (a : ℚ) :
    ∀ x ∈ a :: l, l.foldl min a ≤ x := by
  induction l generalizing a with
  | nil =>
    intro x hx
    rw [List.mem_singleton] at hx
    subst hx
    exact le_refl _
  | cons c l ih =>
    intro x hx
    have hhead : List.foldl min (min a c) l ≤ min a c :=
      ih (min a c) _ (List.mem_cons_self _ _)
    rcases List.mem_cons.1 hx with hxa | hx2
    · subst hxa
      exact le_trans hhead (min_le_left _ _)
    · rcases List.mem_cons.1 hx2 with hxc | hxl
      · subst hxc
        exact le_trans hhead (min_le_right _ _)
      · exact ih (min a c) x (List.mem_cons_of_mem _ hxl)

/-- The fold of `max` over `a :: l` bounds every member from above. -/
theorem le_foldl_max (l : List ℚ) (a : ℚ) :
    ∀ x ∈ a :: l, x ≤ l.foldl max a := by
  induction l generalizing a with
  | nil =>
    intro x hx
    rw [List.mem_singleton] at hx
    subst hx
    exact le_refl _
  | cons c l ih =>
    intro x hx
    have hhead : max a c ≤ List.foldl max (max a c) l :=
      ih (max a c) _ (List.mem_cons_self _ _)
    rcases List.mem_cons.1 hx with hxa | hx2
    · subst hxa
      exact le_trans (le_max_left _ _) hhead
    · rcases List.mem_cons.1 hx2 with hxc | hxl
      · subst hxc
        exact le_trans (le_max_right _ _) hhead
      · exact ih (max a c) x (List.mem_cons_of_mem _ hxl)

/-- C8: over every non-empty sequence of non-void solves the `updateStats`
aggregates satisfy `best ≤ mean ≤ worst`, each computed from the effective
times; and when the non-void subsequence is empty all three are reported as
no data. -/
theorem C8_best_mean_worst (solves : List Solve) :
    (solves ≠ [] → (∀ s ∈ solves, s.penalty ≠ some Penalty.dnf) →
      ∃ b w : WithTop ℚ, ∃ m : ℚ,
        bestStat solves = some b ∧ worstStat solves = some w ∧
        meanStat solves = some m ∧
        b ≤ ((m : ℚ) : WithTop ℚ) ∧ ((m : ℚ) : WithTop ℚ) ≤ w) ∧
    (validTimes solves = [] →
      bestStat solves = none ∧ worstStat solves = none ∧ meanStat solves = none) := by
  constructor
  · intro hne hnd
    have hvt := validTimes_of_all_ne_dnf solves hnd
    match hq : solves.map effQ with
    | [] =>
      exact absurd (List.map_eq_nil_iff.1 hq) hne
    | q :: qs =>
      rw [hq] at hvt
      have hlenpos : (0 : ℚ) < ((qs.length + 1 : ℕ) : ℚ) := by positivity
      refine ⟨((qs.foldl min q : ℚ) : WithTop ℚ), ((qs.foldl max q : ℚ) : WithTop ℚ),
        (q :: qs).sum / ((qs.length + 1 : ℕ) : ℚ), ?_, ?_, ?_, ?_, ?_⟩
      · unfold bestStat
        rw [hvt]
        simp only [List.map_cons]
        rw [foldl_min_coe]
      · unfold worstStat
        rw [hvt]
        simp only [List.map_cons]
        rw [foldl_max_coe]
      · unfold meanStat
        rw [hvt]
        simp only [List.map_cons, List.map_map]
        rw [WithTop.untop'_coe]
        have hcomp : (qs.map (WithTop.untop' 0 ∘ fun q => ((q : ℚ) : WithTop ℚ))) = qs := by
          simp [Function.comp_def, WithTop.untop'_coe]
        rw [hcomp]
        simp [List.sum_cons]
      · rw [WithTop.coe_le_coe]
        rw [le_div_iff₀ hlenpos]
        have hb : ∀ x ∈ q :: qs, qs.foldl min q ≤ x := foldl_min_le qs q
        have := List.card_nsmul_le_sum (q :: qs) (qs.foldl min q) hb
        simpa [nsmul_eq_mul, mul_comm] using this
      · rw [WithTop.coe_le_coe]
        rw [div_le_iff₀ hlenpos]
        have hw : ∀ x ∈ q :: qs, x ≤ qs.foldl max q := le_foldl_max qs q
        have := List.sum_le_card_nsmul (q :: qs) (qs.foldl max q) hw
        simpa [nsmul_eq_mul, mul_comm] using this
  · intro h
    exact ⟨by simp [bestStat, h], by simp [worstStat, h], by simp [meanStat, h]⟩

/-- Witness for C8 at two concrete solves (one clean, one `+2`). -/
theorem C8_best_mean_worst_witness :
    ∃ b w : WithTop ℚ, ∃ m : ℚ,
      bestStat c8Solves = some b ∧ worstStat c8Solves = some w ∧
      meanStat c8Solves = some m ∧
      b ≤ ((m : ℚ) : WithTop ℚ) ∧ ((m : ℚ) : WithTop ℚ) ≤ w :=
  (C8_best_mean_worst c8Solves).1 (by simp [c8Solves])
    (by
      intro s hs
      simp only [c8Solves, mkSolve, List.mem_cons, List.mem_singleton] at hs
      rcases hs with h | h | h <;> simp [h]
      · exact (List.not_mem_nil s h).elim)

/-- C9: an import document missing any of the top-level keys `sessions`,
`settings`, `meshSplits` leaves the prior in-memory value of each absent key
unchanged; a successful import supplying a non-empty sessions array replaces
the session list and resets the current session to the first imported one. -/
theorem C9_import_tolerates_missing (st : AppState) (doc : ImportDoc) :
    (doc.sessions = none → (importData st doc).sessions = st.sessions) ∧
    (doc.settings = none → (importData st doc).settings = st.settings) ∧
    (doc.meshSplits = none → (importData st doc).meshSplits = st.meshSplits) ∧
    (∀ (s : Session) (ss : List Session), doc.sessions = some (s :: ss) →
      (importData st doc).sessions = s :: ss ∧
      (importData st doc).currentSessionId = some s.id) := by
  refine ⟨fun h => ?_, fun h => ?_, fun h => ?_, fun s ss h => ?_⟩ <;>
    simp [importData, h]

/-- Witness for C9: importing a one-session document into the initial state
installs that session and selects it. -/
theorem C9_import_witness :
    (importData initAppState c9Doc).sessions = [c9Session] ∧
    (importData initAppState c9Doc).currentSessionId = some c9Session.id :=
  (C9_import_tolerates_missing initAppState c9Doc).2.2.2 c9Session [] rfl

/-- On a body containing a colon, the numeric-body parser is determined by
`parseInt` of the first part and `parseFloat` of the second, range-checked. -/
theorem parseNumericBody_colon (input mins rest : List Char) (tl : List (List Char))
    (p : Option Penalty) (m : ℤ) (sec : ℚ)
    (hc : input.contains ':' = true)
    (hsplit : jsSplitOnChar ':' input = mins :: rest :: tl)
    (hm : jsParseInt mins = some m) (hs : jsParseFloat rest = some sec) :
    parseNumericBody input p =
      if ((m : ℚ) * 60 + sec) * 1000 ≤ 0 ∨ 3600000 < ((m : ℚ) * 60 + sec) * 1000
      then none
      else some ⟨((m : ℚ) * 60 + sec) * 1000, p⟩ := by
  simp only [parseNumericBody]
  rw [if_pos hc]
  simp only [hsplit, hm, hs]

/-- On a colon-free body whose `parseFloat` succeeds, the numeric-body parser
returns the range-checked seconds value. -/
theorem parseNumericBody_nocolon (input : List Char) (p : Option Penalty) (sec : ℚ)
    (hc : input.contains ':' = false)
    (hs : jsParseFloat input = some sec) :
    parseNumericBody input p =
      if sec * 1000 ≤ 0 ∨ 3600000 < sec * 1000 then none
      else some ⟨sec * 1000, p⟩ := by
  simp only [parseNumericBody]
  rw [if_neg (by simp only [hc]; decide)]
  simp only [hs]

/-- On a colon-free body whose `parseFloat` fails, the numeric-body parser
rejects. -/
theorem parseNumericBody_nofloat (input : List Char) (p : Option Penalty)
    (hc : input.contains ':' = false)
    (hs : jsParseFloat input = none) :
    parseNumericBody input p = none := by
  simp only [parseNumericBody]
  rw [if_neg (by simp only [hc]; decide)]
  simp only [hs]

/-- A successful numeric-body parse is in range and keeps the caller's
penalty. -/
theorem parseNumericBody_range (input : List Char) (p : Option Penalty)
    (t : ℚ) (pen : Option Penalty)
    (h : parseNumericBody input p = some ⟨t, pen⟩) :
    0 < t ∧ t ≤ 3600000 ∧ pen = p := by
  unfold parseNumericBody at h
  set tm : Option ℚ :=
    (if input.contains ':' = true then
      match jsSplitOnChar ':' input with
      | minutes :: rest :: _ =>
        match jsParseInt minutes, jsParseFloat rest with
        | some m, some seconds => some (((m : ℚ) * 60 + seconds) * 1000)
        | _, _ => none
      | _ => none
    else
      match jsParseFloat input with
      | some seconds => some (seconds * 1000)
      | none => none) with htm
  clear_value tm
  match tm with
  | none => exact absurd h (by simp)
  | some t0 =>
    simp only at h
    by_cases hr : t0 ≤ 0 ∨ 3600000 < t0
    · rw [if_pos hr] at h
      exact absurd h (by simp)
    · rw [if_neg hr] at h
      push_neg at hr
      obtain ⟨ht, hpen⟩ := ParsedTime.mk.injEq .. ▸ (Option.some_injective _ h)
      subst ht
      exact ⟨hr.1, hr.2, hpen.symm⟩

/-- The trimmed, lower-cased input `dnf` short-circuits to a void result. -/
theorem parseTimeInput_dnf (cs : List Char)
    (h : jsToLower (jsTrim cs) = ['d', 'n', 'f']) :
    parseTimeInput cs = some ⟨0, some Penalty.dnf⟩ := by
  simp only [parseTimeInput]
  rw [if_pos h]

/-- A trailing `+` or `+2` on a non-`dnf` input yields a `+2` penalty and is
stripped before the numeric body is parsed. -/
theorem parseTimeInput_plus (cs : List Char)
    (hd : ¬ jsToLower (jsTrim cs) = ['d', 'n', 'f'])
    (hp : (['+'].isSuffixOf (jsTrim cs) || ['+', '2'].isSuffixOf (jsTrim cs)) = true) :
    parseTimeInput cs =
      parseNumericBody (jsTrim (stripPlusSuffix (jsTrim cs))) (some Penalty.plus2) := by
  simp only [parseTimeInput]
  rw [if_neg hd, if_pos hp]

/-- Without a DNF marker or penalty suffix the trimmed input is parsed as a
numeric body with no penalty. -/
theorem parseTimeInput_plain (cs : List Char)
    (hd : ¬ jsToLower (jsTrim cs) = ['d', 'n', 'f'])
    (hp : (['+'].isSuffixOf (jsTrim cs) || ['+', '2'].isSuffixOf (jsTrim cs)) = false) :
    parseTimeInput cs = parseNumericBody (jsTrim cs) none := by
  simp only [parseTimeInput]
  rw [if_neg hd, if_neg (by simp [hp])]

/-- C7: the manual time entry parser maps `dnf` case-insensitively to a void
result with duration 0; a trailing `+` or `+2` yields a `+2` penalty and is
stripped before the numeric parse; every accepted non-DNF entry has
`0 < duration ≤ 3600000`; and concretely `1:05.32` parses to 65320 ms with no
penalty, `12.5+` to 12500 ms with a `+2` penalty, while `abc` and `0` are
rejected. -/
theorem C7_parseTimeInput :
    (∀ cs : List Char, jsToLower (jsTrim cs) = ['d', 'n', 'f'] →
      parseTimeInput cs = some ⟨0, some Penalty.dnf⟩) ∧
    (∀ (cs : List Char) (t : ℚ) (pen : Option Penalty),
      parseTimeInput cs = some ⟨t, pen⟩ →
      (t = 0 ∧ pen = some Penalty.dnf) ∨ (0 < t ∧ t ≤ 3600000)) ∧
    (∀ cs : List Char, ¬ jsToLower (jsTrim cs) = ['d', 'n', 'f'] →
      (['+'].isSuffixOf (jsTrim cs) || ['+', '2'].isSuffixOf (jsTrim cs)) = true →
      parseTimeInput cs =
        parseNumericBody (jsTrim (stripPlusSuffix (jsTrim cs))) (some Penalty.plus2)) ∧
    parseTimeInput "1:05.32".toList = some ⟨65320, none⟩ ∧
    parseTimeInput "12.5+".toList = some ⟨12500, some Penalty.plus2⟩ ∧
    parseTimeInput "abc".toList = none ∧
    parseTimeInput "0".toList = none := by
  have habc : parseTimeInput "abc".toList = none := by
    rw [parseTimeInput_plain "abc".toList (by decide) (by decide)]
    exact parseNumericBody_nofloat _ _ (by decide) rfl
  have h105 : parseTimeInput "1:05.32".toList = some ⟨65320, none⟩ := by
    rw [parseTimeInput_plain "1:05.32".toList (by decide) (by decide)]
    rw [show jsTrim "1:05.32".toList = "1:05.32".toList from by decide]
    have hfl : jsParseFloat "05.32".toList = some (532 / 100) := by
      simp [jsParseFloat, digitsToNat, fracValue]
      norm_num
    rw [parseNumericBody_colon "1:05.32".toList "1".toList "05.32".toList []
      none 1 (532 / 100) (by decide) (by decide) (by decide) hfl]
    rw [if_neg (by norm_num)]
    norm_num
  have h125 : parseTimeInput "12.5+".toList = some ⟨12500, some Penalty.plus2⟩ := by
    rw [parseTimeInput_plus "12.5+".toList (by decide) (by decide)]
    have hfl : jsParseFloat "12.5".toList = some (125 / 10) := by
      simp [jsParseFloat, digitsToNat, fracValue]
      norm_num
    have hstrip : jsTrim (stripPlusSuffix (jsTrim "12.5+".toList)) = "12.5".toList := by
      decide
    rw [hstrip, parseNumericBody_nocolon "12.5".toList (some Penalty.plus2)
      (125 / 10) (by decide) hfl]
    rw [if_neg (by norm_num)]
    norm_num
  have h0 : parseTimeInput "0".toList = none := by
    rw [parseTimeInput_plain "0".toList (by decide) (by decide)]
    rw [show jsTrim "0".toList = "0".toList from by decide]
    have hfl : jsParseFloat "0".toList = some 0 := by
      simp [jsParseFloat, digitsToNat]
    rw [parseNumericBody_nocolon "0".toList none 0 (by decide) hfl]
    rw [if_pos (by norm_num)]
  refine ⟨parseTimeInput_dnf, ?_, parseTimeInput_plus, h105, h125, habc, h0⟩
  intro cs t pen h
  by_cases hd : jsToLower (jsTrim cs) = ['d', 'n', 'f']
  · rw [parseTimeInput_dnf cs hd] at h
    obtain ⟨ht, hpen⟩ := ParsedTime.mk.injEq .. ▸ (Option.some_injective _ h)
    exact Or.inl ⟨ht.symm, hpen.symm⟩
  · cases hp : (['+'].isSuffixOf (jsTrim cs) || ['+', '2'].isSuffixOf (jsTrim cs)) with
    | true =>
      rw [parseTimeInput_plus cs hd hp] at h
      exact Or.inr ⟨(parseNumericBody_range _ _ _ _ h).1,
        (parseNumericBody_range _ _ _ _ h).2.1⟩
    | false =>
      rw [parseTimeInput_plain cs hd hp] at h
      exact Or.inr ⟨(parseNumericBody_range _ _ _ _ h).1,
        (parseNumericBody_range _ _ _ _ h).2.1⟩

/-- Witness for C7: the upper-case entry `DNF` is recognised
case-insensitively. -/
theorem C7_parseTimeInput_witness :
    parseTimeInput "DNF".toList = some ⟨0, some Penalty.dnf⟩ :=
  C7_parseTimeInput.1 "DNF".toList (by decide)

end Mesh
